import Mathlib

/-!
Verification model of the release orchestration engine in
src/github-releaser-llm (github_client.rs and main.rs).

Modelling conventions:
* Rust functions returning Result are modelled with RResult; a panic
  (process abort via .unwrap() or checked-arithmetic overflow) is a
  distinct outcome from an Err return.
* The regex v(\d+)\.(\d+)\.(\d+)(.*) anchored at both ends is embedded
  as a maximal-munch parser on lists of characters; for this pattern
  greedy matching and maximal munch coincide because a digit can never
  match the literal dot that follows each digit group.  The digit class
  is modelled as the ASCII digits and the dot-any class as every
  character except the newline, matching the regex on ASCII input.
* Remote GitHub state is modelled by a World of response functions; the
  orchestrator in main.rs is modelled as a function from a World to an
  outcome together with the list of remote calls (events) it performed.
-/

namespace Releaser

/-- Outcome of a fallible Rust operation: a value, an error return
(Result.Err), or a process abort caused by a panic. -/
inductive RResult (α : Type) where
  | ok (a : α)
  | err (msg : String)
  | panics
deriving DecidableEq, Repr

/-- Numeric value of an ASCII digit character. -/
def digitVal (c : Char) : Nat := c.toNat - 48

/-- Decimal value of a digit string, as u32 parsing computes it. -/
def natOfDigits (l : List Char) : Nat :=
  l.foldl (fun a c => 10 * a + digitVal c) 0

/-- The ASCII digit character for a value below ten. -/
def digitChar (d : Nat) : Char := Char.ofNat (48 + d)

/-- Fuel-bounded decimal rendering; structural so that the kernel can
evaluate it.  The fuel is always chosen above the number rendered. -/
def natToDigitsAux : Nat → Nat → List Char
  | 0, _ => []
  | fuel + 1, n =>
    if n < 10 then [digitChar n]
    else natToDigitsAux fuel (n / 10) ++ [digitChar (n % 10)]

/-- Decimal rendering of a natural number, most significant digit
first, as the Display implementation for unsigned integers prints. -/
def natToDigits (n : Nat) : List Char := natToDigitsAux (n + 1) n

/-- String form of the decimal rendering. -/
def natStr (n : Nat) : String := String.mk (natToDigits n)

/-- Embedding of the anchored regex v(\d+)\.(\d+)\.(\d+)(.*): the four
capture groups, or none when the tag does not match.  Greedy matching
of each digit group is maximal munch, since the character after each
group (a literal dot) is never a digit. -/
def parseTagChars : List Char → Option (List Char × List Char × List Char × List Char)
  | [] => none
  | c :: rest =>
    if c = 'v' then
      if (rest.takeWhile Char.isDigit).isEmpty then none
      else
        match rest.dropWhile Char.isDigit with
        | [] => none
        | d1 :: r2 =>
          if d1 = '.' then
            if (r2.takeWhile Char.isDigit).isEmpty then none
            else
              match r2.dropWhile Char.isDigit with
              | [] => none
              | d2 :: r4 =>
                if d2 = '.' then
                  if (r4.takeWhile Char.isDigit).isEmpty then none
                  else if (r4.dropWhile Char.isDigit).contains '\n' then none
                  else some (rest.takeWhile Char.isDigit, r2.takeWhile Char.isDigit,
                             r4.takeWhile Char.isDigit, r4.dropWhile Char.isDigit)
                else none
          else none
    else none

/-- Capture groups of the version regex on a tag string. -/
def parseTag (tag : String) : Option (String × String × String × String) :=
  match parseTagChars tag.data with
  | some (mj, mn, pt, sfx) => some (String.mk mj, String.mk mn, String.mk pt, String.mk sfx)
  | none => none

/-- One above the largest u32 value. -/
def U32_MOD : Nat := 4294967296

/-- Model of GitHubClient::increment_patch_version.  The patch capture
is parsed as u32 and unwrapped: a value outside the u32 range panics.
The subsequent increment of u32::MAX panics under checked arithmetic
(release builds would wrap instead; no claim depends on that branch). -/
def increment_patch_version (tag : String) : RResult String :=
  match parseTag tag with
  | none => .err ("Invalid semantic version tag format: " ++ tag)
  | some (mj, mn, pt, sfx) =>
    let p := natOfDigits pt.data
    if p < U32_MOD then
      if p + 1 < U32_MOD then
        .ok ("v" ++ mj ++ "." ++ mn ++ "." ++ natStr (p + 1) ++ sfx)
      else .panics
    else .panics

/-- Model of GitHubClient::get_minor_version. -/
def get_minor_version (tag : String) : RResult String :=
  match parseTag tag with
  | some (mj, mn, _, _) => .ok (mj ++ "." ++ mn)
  | none => .err ("Invalid semantic version tag format: " ++ tag)

/-- Model of GitHubClient::get_release_branch_name. -/
def get_release_branch_name (tag : String) : RResult String :=
  match get_minor_version tag with
  | .ok mv => .ok ("release/v" ++ mv ++ ".x")
  | .err e => .err e
  | .panics => .panics

/-- Digit folding with an explicit accumulator. -/
def natOfDigitsFrom (a : Nat) (l : List Char) : Nat :=
  l.foldl (fun x c => 10 * x + digitVal c) a

/-- reqwest StatusCode is_success: the 2xx range. -/
def statusIsSuccess (st : Nat) : Bool := decide (200 ≤ st) && decide (st < 300)

/-- Model of GitHubClient::delete_release response handling: only a
success status yields Ok; every other status, 404 included, is an Err. -/
def delete_release (st : Nat) : RResult Unit :=
  if statusIsSuccess st then .ok () else .err "Failed to delete release"

/-- Model of GitHubClient::delete_tag response handling: a success
status or a 404 yields Ok; any other status is an Err. -/
def delete_tag (st : Nat) : RResult Unit :=
  if statusIsSuccess st || st == 404 then .ok () else .err "Failed to delete tag"

/-- JSON body built by GitHubClient::create_release. -/
structure CreateReleaseRequest where
  tag_name : String
  target_commitish : String
  name : String
  draft : Bool
  prerelease : Bool
  generate_release_notes : Bool
deriving DecidableEq, Repr

/-- The request create_release posts for a tag and target branch. -/
def create_release_request (tag branch : String) : CreateReleaseRequest :=
  { tag_name := tag, target_commitish := branch, name := tag,
    draft := false, prerelease := true, generate_release_notes := true }

/-- A release resource as deserialized from the host. -/
structure Release where
  id : Nat
  body : Option String
  prerelease : Option Bool
deriving DecidableEq, Repr

/-- Remote calls the engine can make during one run. -/
inductive Event where
  | getReleaseByTag (tag : String)
  | deleteRelease (id : Nat)
  | deleteTag (tag : String)
  | branchExists (branch : String)
  | getLatestCommitSha (branch : String)
  | createTagObject (tag msg obj : String)
  | createTagRef (tag sha : String)
  | createRelease (tag branch : String)
  | formatNotes (raw : String)
  | updateRelease (id : Nat) (notes : String)
deriving DecidableEq, Repr

/-- Remote state and host responses for one run.  Reads are modelled as
total functions (transport failures of read endpoints are outside the
model); write outcomes are response functions so every success and
failure path of the orchestrator is reachable. -/
structure World where
  releases : String → Option Release
  branches : String → Bool
  deleteReleaseOk : Nat → Bool
  commits : String → Option String
  tagObjectSha : String → String → String → Option String
  tagRefOk : String → String → Bool
  createdRelease : String → Option Release
  formatted : String → Option String
  updateOk : Nat → String → Bool

/-- GitHubClient::get_release_by_tag over a release table (the table is
a parameter because a deletion earlier in the run changes what the
later re-read observes). -/
def get_release_by_tag (rels : String → Option Release) (tag : String) :
    Option Release × List Event :=
  (rels tag, [.getReleaseByTag tag])

/-- GitHubClient::branch_exists. -/
def branch_exists (w : World) (branch : String) : Bool × List Event :=
  (w.branches branch, [.branchExists branch])

/-- GitHubClient::is_prerelease: absent release or absent flag count
as not prerelease. -/
def is_prerelease (w : World) (tag : String) : Bool × List Event :=
  match get_release_by_tag w.releases tag with
  | (some r, ev) => (r.prerelease.getD false, ev)
  | (none, ev) => (false, ev)

/-- GitHubClient::should_increment_patch: prerelease check first; the
branch lookup only happens when the release is a prerelease. -/
def should_increment_patch (w : World) (tag : String) : RResult Bool × List Event :=
  match is_prerelease w tag with
  | (is_pre, ev1) =>
    if !is_pre then (.ok false, ev1)
    else
      match get_release_branch_name tag with
      | .ok bn =>
        match branch_exists w bn with
        | (bex, ev2) => (.ok (is_pre && bex), ev1 ++ ev2)
      | .err e => (.err e, ev1)
      | .panics => (.panics, ev1)

/-- GitHubClient::determine_tag_version. -/
def determine_tag_version (w : World) (requested : String) : RResult String × List Event :=
  match should_increment_patch w requested with
  | (.ok true, ev) =>
    match increment_patch_version requested with
    | .ok t => (.ok t, ev)
    | .err e => (.err e, ev)
    | .panics => (.panics, ev)
  | (.ok false, ev) => (.ok requested, ev)
  | (.err e, ev) => (.err e, ev)
  | (.panics, ev) => (.panics, ev)

/-- GitHubClient::get_release_branch_for_tag: the convention branch if
it exists, the tag fallback branch otherwise. -/
def get_release_branch_for_tag (w : World) (tag : String) : RResult String × List Event :=
  match get_release_branch_name tag with
  | .ok bn =>
    match branch_exists w bn with
    | (true, ev) => (.ok bn, ev)
    | (false, ev) => (.ok ("release/" ++ tag), ev)
  | .err e => (.err e, [])
  | .panics => (.panics, [])

/-- GitHubClient::get_latest_commit_sha. -/
def get_latest_commit_sha (w : World) (branch : String) : Option String × List Event :=
  (w.commits branch, [.getLatestCommitSha branch])

/-- GitHubClient::create_release: resolves the target branch again,
then posts the create request (see create_release_request). -/
def create_release (w : World) (tag : String) : RResult Release × List Event :=
  match get_release_branch_for_tag w tag with
  | (.ok branch, ev) =>
    match w.createdRelease tag with
    | some r => (.ok r, ev ++ [.createRelease tag branch])
    | none => (.err "Failed to create release", ev ++ [.createRelease tag branch])
  | (.err e, ev) => (.err e, ev)
  | (.panics, ev) => (.panics, ev)

/-- Steps 7 to 8 of process_release in main.rs: extract the release
body, format it, publish it back. -/
def notesSteps (w : World) (rel : Release) : RResult Unit × List Event :=
  match rel.body with
  | some notes =>
    if !notes.trim.isEmpty then
      match w.formatted notes with
      | some fnotes =>
        if w.updateOk rel.id fnotes then
          (.ok (), [.formatNotes notes, .updateRelease rel.id fnotes])
        else (.err "Failed to update release", [.formatNotes notes, .updateRelease rel.id fnotes])
      | none => (.err "Failed to format notes", [.formatNotes notes])
    else (.err "No release notes found or notes are empty.", [])
  | none => (.err "No release notes found or notes are empty.", [])

/-- Step 6 of process_release: reuse the release read at step 5 when it
exists, create a new one otherwise. -/
def ensureRelease (w : World) (tag : String) (existing : Option Release) :
    RResult Unit × List Event :=
  match existing with
  | some rel => notesSteps w rel
  | none =>
    match create_release w tag with
    | (.ok rel, ev) =>
      match notesSteps w rel with
      | (res, ev2) => (res, ev ++ ev2)
    | (.err e, ev) => (.err e, ev)
    | (.panics, ev) => (.panics, ev)

/-- Steps 5 onward of process_release: re-read the release for the
effective tag, create the annotated tag and its ref when no release
exists or the run is not incremented, then ensure the release and
publish the notes. -/
def afterFetch (w : World) (tag : String) (inc : Bool)
    (rels : String → Option Release) (sha : String) : RResult Unit × List Event :=
  match get_release_by_tag rels tag with
  | (existing, evR) =>
    if existing.isNone || !inc then
      match w.tagObjectSha tag ("Release " ++ tag) sha with
      | none => (.err "Failed to create tag object",
          evR ++ [.createTagObject tag ("Release " ++ tag) sha])
      | some osha =>
        if w.tagRefOk tag osha then
          match ensureRelease w tag existing with
          | (res, ev) => (res,
              evR ++ [.createTagObject tag ("Release " ++ tag) sha, .createTagRef tag osha] ++ ev)
        else (.err "Failed to create tag ref",
            evR ++ [.createTagObject tag ("Release " ++ tag) sha, .createTagRef tag osha])
    else
      match ensureRelease w tag existing with
      | (res, ev) => (res, evR ++ ev)

/-- Steps 3 and 4 of process_release: resolve the release branch and
read its latest commit; a missing commit is fatal. -/
def afterStep2 (w : World) (tag : String) (inc : Bool)
    (rels : String → Option Release) : RResult Unit × List Event :=
  match get_release_branch_for_tag w tag with
  | (.ok branch, evB) =>
    match get_latest_commit_sha w branch with
    | (some sha, evC) =>
      match afterFetch w tag inc rels sha with
      | (res, ev) => (res, evB ++ evC ++ ev)
    | (none, evC) =>
      (.err ("Failed to get latest commit from branch " ++ branch), evB ++ evC)
  | (.err e, evB) => (.err e, evB)
  | (.panics, evB) => (.panics, evB)

/-- Step 2 of process_release: the tag ref delete runs only for a
non-incremented run, and either outcome of it continues the run. -/
def afterStep1 (w : World) (tag : String) (inc : Bool)
    (rels : String → Option Release) : RResult Unit × List Event :=
  match afterStep2 w tag inc rels with
  | (res, ev) => (res, (if inc then ([] : List Event) else [.deleteTag tag]) ++ ev)

/-- Model of process_release in main.rs: version resolution, release
reconciliation (delete only when not incremented), tag reconciliation,
branch and commit resolution, tag and release creation, notes
formatting and publication. -/
def process_release (w : World) (requested_tag : String) : RResult Unit × List Event :=
  match determine_tag_version w requested_tag with
  | (.ok tag, ev0) =>
    match get_release_by_tag w.releases tag with
    | (optRel, evG) =>
      match optRel with
      | some release =>
        if tag != requested_tag then
          match afterStep1 w tag (tag != requested_tag) w.releases with
          | (res, ev) => (res, ev0 ++ evG ++ ev)
        else
          if w.deleteReleaseOk release.id then
            match afterStep1 w tag (tag != requested_tag)
                (fun t => if t == tag then none else w.releases t) with
            | (res, ev) => (res, ev0 ++ evG ++ [.deleteRelease release.id] ++ ev)
          else (.err "Failed to delete release", ev0 ++ evG ++ [.deleteRelease release.id])
      | none =>
        match afterStep1 w tag (tag != requested_tag) w.releases with
        | (res, ev) => (res, ev0 ++ evG ++ ev)
  | (.err e, ev0) => (.err e, ev0)
  | (.panics, ev0) => (.panics, ev0)

/-- Whether an event is one of the two delete operations. -/
def Event.isDelete : Event → Bool
  | .deleteRelease _ => true
  | .deleteTag _ => true
  | _ => false

/-- No delete operation occurs in the event list. -/
def noDelete (l : List Event) : Bool := l.all (fun e => !e.isDelete)

/-- Whether an event is the creation of an annotated tag object. -/
def Event.isTagObjectCreate : Event → Bool
  | .createTagObject _ _ _ => true
  | _ => false

/-- Whether an event is the creation of a tag ref. -/
def Event.isTagRefCreate : Event → Bool
  | .createTagRef _ _ => true
  | _ => false

/-- No tag object or tag ref creation occurs in the event list. -/
def noTagCreate (l : List Event) : Bool :=
  l.all (fun e => !e.isTagObjectCreate && !e.isTagRefCreate)

/-- A fully successful world: v1.0.0 carries a prerelease and the
convention branch release/v1.0.x exists. -/
def testWorld : World where
  releases := fun t => if t == "v1.0.0"
    then some ⟨12345, some "Release notes", some true⟩ else none
  branches := fun b => b == "release/v1.0.x"
  deleteReleaseOk := fun _ => true
  commits := fun _ => some "abc123"
  tagObjectSha := fun _ _ _ => some "tagsha"
  tagRefOk := fun _ _ => true
  createdRelease := fun _ => some ⟨54321, some "Auto notes", some true⟩
  formatted := fun s => some ("Formatted " ++ s)
  updateOk := fun _ _ => true


section DigitLemmas

lemma natToDigitsAux_congr : ∀ n f1 f2, n < f1 → n < f2 →
    natToDigitsAux f1 n = natToDigitsAux f2 n := by
  intro n
  induction n using Nat.strong_induction_on with
  | _ n ih =>
    intro f1 f2 h1 h2
    match f1, f2 with
    | a + 1, b + 1 =>
      simp only [natToDigitsAux]
      by_cases h : n < 10
      · simp [h]
      · simp only [if_neg h]
        have hd : n / 10 < n := Nat.div_lt_self (by omega) (by omega)
        rw [ih (n / 10) hd a b (by omega) (by omega)]

/-- Unfolding equation for the decimal rendering. -/
lemma natToDigits_eq (n : Nat) :
    natToDigits n = if n < 10 then [digitChar n]
      else natToDigits (n / 10) ++ [digitChar (n % 10)] := by
  by_cases h : n < 10
  · simp [natToDigits, natToDigitsAux, h]
  · have hd : n / 10 < n := Nat.div_lt_self (by omega) (by omega)
    rw [if_neg h]
    have h1 : natToDigits n = natToDigitsAux n (n / 10) ++ [digitChar (n % 10)] := by
      simp only [natToDigits, natToDigitsAux, if_neg h]
    rw [h1, natToDigitsAux_congr (n / 10) n (n / 10 + 1) hd (by omega)]
    rfl

lemma digitChar_isDigit {d : Nat} (h : d < 10) : (digitChar d).isDigit = true := by
  interval_cases d <;> decide

lemma digitVal_digitChar {d : Nat} (h : d < 10) : digitVal (digitChar d) = d := by
  interval_cases d <;> decide

lemma natOfDigits_eq_from (l : List Char) : natOfDigits l = natOfDigitsFrom 0 l := rfl

lemma natOfDigitsFrom_append (a : Nat) (xs ys : List Char) :
    natOfDigitsFrom a (xs ++ ys) = natOfDigitsFrom (natOfDigitsFrom a xs) ys := by
  unfold natOfDigitsFrom
  rw [List.foldl_append]

lemma natToDigits_spec (n : Nat) : ∀ a : Nat,
    natOfDigitsFrom a (natToDigits n) = a * 10 ^ (natToDigits n).length + n := by
  induction n using Nat.strong_induction_on with
  | _ n ih =>
    intro a
    rw [natToDigits_eq n]
    by_cases h : n < 10
    · simp [if_pos h, natOfDigitsFrom, digitVal_digitChar h]
      ring
    · rw [if_neg h]
      have hd : n / 10 < n := Nat.div_lt_self (by omega) (by omega)
      rw [natOfDigitsFrom_append, ih (n / 10) hd a]
      simp only [natOfDigitsFrom, List.foldl_cons, List.foldl_nil,
        List.length_append, List.length_cons, List.length_nil]
      rw [digitVal_digitChar (by omega)]
      have hmod := Nat.div_add_mod n 10
      ring_nf
      omega

lemma natOfDigits_natToDigits (n : Nat) : natOfDigits (natToDigits n) = n := by
  rw [natOfDigits_eq_from, natToDigits_spec n 0]
  simp

lemma natToDigits_all_digit (n : Nat) : ∀ c ∈ natToDigits n, c.isDigit = true := by
  induction n using Nat.strong_induction_on with
  | _ n ih =>
    intro c hc
    rw [natToDigits_eq n] at hc
    by_cases h : n < 10
    · rw [if_pos h] at hc
      simp at hc
      subst hc
      exact digitChar_isDigit h
    · rw [if_neg h] at hc
      have hd : n / 10 < n := Nat.div_lt_self (by omega) (by omega)
      rcases List.mem_append.mp hc with h1 | h1
      · exact ih (n / 10) hd c h1
      · simp at h1
        subst h1
        exact digitChar_isDigit (by omega)

lemma natToDigits_ne_nil (n : Nat) : natToDigits n ≠ [] := by
  rw [natToDigits_eq n]
  by_cases h : n < 10
  · simp [if_pos h]
  · simp [if_neg h]

end DigitLemmas

section ParseLemmas

lemma mem_takeWhile_digit {p : Char → Bool} :
    ∀ (l : List Char), ∀ c ∈ l.takeWhile p, p c = true := by
  intro l
  induction l with
  | nil => intro c hc; simp [List.takeWhile] at hc
  | cons x xs ih =>
    intro c hc
    rw [List.takeWhile_cons] at hc
    by_cases hx : p x = true
    · rw [if_pos hx] at hc
      rcases List.mem_cons.mp hc with h1 | h1
      · subst h1; exact hx
      · exact ih c h1
    · rw [if_neg hx] at hc
      simp at hc

lemma head_dropWhile_false {p : Char → Bool} :
    ∀ (l : List Char) (c : Char), (l.dropWhile p).head? = some c → p c = false := by
  intro l
  induction l with
  | nil => intro c h; simp [List.dropWhile] at h
  | cons x xs ih =>
    intro c h
    rw [List.dropWhile_cons] at h
    by_cases hx : p x = true
    · rw [if_pos hx] at h; exact ih c h
    · rw [if_neg hx] at h
      simp at h
      subst h
      simpa using hx

lemma takeWhile_all_append (p : Char → Bool) (xs ys : List Char)
    (hxs : ∀ x ∈ xs, p x = true)
    (hys : ∀ c, ys.head? = some c → p c = false) :
    (xs ++ ys).takeWhile p = xs ∧ (xs ++ ys).dropWhile p = ys := by
  induction xs with
  | nil =>
    simp only [List.nil_append]
    cases ys with
    | nil => simp
    | cons c t =>
      have hc := hys c rfl
      rw [List.takeWhile_cons, List.dropWhile_cons]
      simp [hc]
  | cons x xs ih =>
    have hx : p x = true := hxs x (by simp)
    have ih2 := ih (fun a ha => hxs a (by simp [ha]))
    rw [List.cons_append, List.takeWhile_cons, List.dropWhile_cons]
    simp [hx, ih2.1, ih2.2]

lemma ne_nil_isEmpty_false {l : List Char} (h : l ≠ []) : l.isEmpty = false := by
  cases l with
  | nil => exact absurd rfl h
  | cons x xs => rfl

/-- The parser accepts exactly the strings built from nonempty digit
groups, with a suffix that starts with a non-digit and holds no
newline; this is the acceptance half. -/
lemma parseTagChars_construct {mj mn pt sfx : List Char}
    (hmj : ∀ x ∈ mj, x.isDigit = true) (hmjne : mj ≠ [])
    (hmn : ∀ x ∈ mn, x.isDigit = true) (hmnne : mn ≠ [])
    (hpt : ∀ x ∈ pt, x.isDigit = true) (hptne : pt ≠ [])
    (hsfx : ∀ c, sfx.head? = some c → c.isDigit = false)
    (hnl : '\n' ∉ sfx) :
    parseTagChars ('v' :: (mj ++ '.' :: (mn ++ '.' :: (pt ++ sfx)))) =
      some (mj, mn, pt, sfx) := by
  have h1 := takeWhile_all_append Char.isDigit mj ('.' :: (mn ++ '.' :: (pt ++ sfx))) hmj
      (by intro c hc; simp at hc; subst hc; decide)
  have h2 := takeWhile_all_append Char.isDigit mn ('.' :: (pt ++ sfx)) hmn
      (by intro c hc; simp at hc; subst hc; decide)
  have h3 := takeWhile_all_append Char.isDigit pt sfx hpt hsfx
  have hc : sfx.contains '\n' = false := by
    simp [List.contains]
    exact hnl
  simp only [parseTagChars, h1.1, h1.2, h2.1, h2.2, h3.1, h3.2,
    ne_nil_isEmpty_false hmjne, ne_nil_isEmpty_false hmnne,
    ne_nil_isEmpty_false hptne, hc, Bool.false_eq_true, if_false, if_pos rfl]
  simp

/-- Soundness half: every successful parse yields nonempty digit
groups and a suffix that starts with a non-digit and holds no
newline. -/
lemma parseTagChars_sound {l mj mn pt sfx : List Char}
    (h : parseTagChars l = some (mj, mn, pt, sfx)) :
    (∀ x ∈ mj, x.isDigit = true) ∧ mj ≠ [] ∧
    (∀ x ∈ mn, x.isDigit = true) ∧ mn ≠ [] ∧
    (∀ x ∈ pt, x.isDigit = true) ∧ pt ≠ [] ∧
    (∀ c, sfx.head? = some c → c.isDigit = false) ∧ '\n' ∉ sfx := by
  cases l with
  | nil => simp [parseTagChars] at h
  | cons c rest =>
    rw [parseTagChars] at h
    by_cases hc : c = 'v'
    case neg => rw [if_neg hc] at h; simp at h
    rw [if_pos hc] at h
    by_cases h1 : (rest.takeWhile Char.isDigit).isEmpty
    case pos => rw [if_pos h1] at h; simp at h
    rw [if_neg h1] at h
    cases hd1 : rest.dropWhile Char.isDigit with
    | nil => rw [hd1] at h; simp at h
    | cons d1 r2 =>
      rw [hd1] at h
      simp only [] at h
      by_cases hdot1 : d1 = '.'
      case neg => rw [if_neg hdot1] at h; simp at h
      rw [if_pos hdot1] at h
      by_cases h2 : (r2.takeWhile Char.isDigit).isEmpty
      case pos => rw [if_pos h2] at h; simp at h
      rw [if_neg h2] at h
      cases hd2 : r2.dropWhile Char.isDigit with
      | nil => rw [hd2] at h; simp at h
      | cons d2 r4 =>
        rw [hd2] at h
        simp only [] at h
        by_cases hdot2 : d2 = '.'
        case neg => rw [if_neg hdot2] at h; simp at h
        rw [if_pos hdot2] at h
        by_cases h3 : (r4.takeWhile Char.isDigit).isEmpty
        case pos => rw [if_pos h3] at h; simp at h
        rw [if_neg h3] at h
        by_cases h4 : (r4.dropWhile Char.isDigit).contains '\n'
        case pos => rw [if_pos h4] at h; simp at h
        rw [if_neg h4] at h
        simp only [Option.some.injEq, Prod.mk.injEq] at h
        obtain ⟨e1, e2, e3, e4⟩ := h
        subst e1; subst e2; subst e3; subst e4
        refine ⟨mem_takeWhile_digit rest, ?_, mem_takeWhile_digit r2, ?_,
          mem_takeWhile_digit r4, ?_, head_dropWhile_false r4, ?_⟩
        · intro hnil; rw [hnil] at h1; exact h1 rfl
        · intro hnil; rw [hnil] at h2; exact h2 rfl
        · intro hnil; rw [hnil] at h3; exact h3 rfl
        · intro hmem
          apply h4
          simp [List.contains]
          exact hmem

end ParseLemmas

lemma data_append (s t : String) : (s ++ t).data = s.data ++ t.data := rfl

lemma mk_data (s : String) : String.mk s.data = s := rfl

/-- Parsing a tag assembled from nonempty digit groups and a suffix
that starts with a non-digit recovers exactly those groups. -/
lemma parseTag_construct_str (mj mn pt : List Char) (sfx : String)
    (hmj : ∀ x ∈ mj, x.isDigit = true) (hmjne : mj ≠ [])
    (hmn : ∀ x ∈ mn, x.isDigit = true) (hmnne : mn ≠ [])
    (hpt : ∀ x ∈ pt, x.isDigit = true) (hptne : pt ≠ [])
    (hsfx : ∀ c, sfx.data.head? = some c → c.isDigit = false)
    (hnl : '\n' ∉ sfx.data) :
    parseTag ("v" ++ String.mk mj ++ "." ++ String.mk mn ++ "." ++ String.mk pt ++ sfx) =
      some (String.mk mj, String.mk mn, String.mk pt, sfx) := by
  have hdata : ("v" ++ String.mk mj ++ "." ++ String.mk mn ++ "." ++ String.mk pt ++ sfx).data
      = 'v' :: (mj ++ '.' :: (mn ++ '.' :: (pt ++ sfx.data))) := by
    simp [data_append, List.append_assoc]
  unfold parseTag
  rw [hdata, parseTagChars_construct hmj hmjne hmn hmnne hpt hptne hsfx hnl, mk_data]

/-- Inversion of parseTag to the character-level captures. -/
lemma parseTag_inv {tag mj mn pt sfx : String}
    (h : parseTag tag = some (mj, mn, pt, sfx)) :
    parseTagChars tag.data = some (mj.data, mn.data, pt.data, sfx.data) := by
  unfold parseTag at h
  cases hp : parseTagChars tag.data with
  | none => rw [hp] at h; simp at h
  | some q =>
    rw [hp] at h
    obtain ⟨a, b, c, d⟩ := q
    simp only [Option.some.injEq, Prod.mk.injEq] at h
    obtain ⟨e1, e2, e3, e4⟩ := h
    subst e1; subst e2; subst e3; subst e4
    rfl

lemma data_mk (l : List Char) : (String.mk l).data = l := rfl

/-- Evaluation of the patch increment on any accepted tag whose
incremented patch still fits in u32. -/
lemma increment_eval {tag mj mn pt sfx : String}
    (hp : parseTag tag = some (mj, mn, pt, sfx))
    (hb : natOfDigits pt.data + 1 < U32_MOD) :
    increment_patch_version tag =
      .ok ("v" ++ mj ++ "." ++ mn ++ "." ++ natStr (natOfDigits pt.data + 1) ++ sfx) := by
  unfold increment_patch_version
  rw [hp]
  simp only []
  rw [if_pos (by omega), if_pos hb]

/-- Sample values from the spec and the repository tests, checked
against the embedding. -/
lemma sample_values :
    increment_patch_version "v1.2.3" = .ok "v1.2.4" ∧
    increment_patch_version "v2.0.9" = .ok "v2.0.10" ∧
    increment_patch_version "v3.4.5-beta" = .ok "v3.4.6-beta" ∧
    get_minor_version "v1.2.3" = .ok "1.2" ∧
    get_minor_version "v3.4.5-alpha" = .ok "3.4" ∧
    get_release_branch_name "v1.2.3" = .ok "release/v1.2.x" ∧
    parseTag "v1.2" = none ∧ parseTag "va.2.3" = none := by
  refine ⟨?_, ?_, ?_, ?_, ?_, ?_, ?_, ?_⟩ <;> decide

/-- C2: for every well-formed tag of the shape v<maj>.<min>.<pat>[suffix]
(components rendered in decimal, suffix not starting with a digit and
holding no newline, incremented patch within u32), increment_patch_version
returns the tag whose patch is pat + 1 and whose major, minor and suffix
are identical to the input.  -/
theorem claim_C2_increment_patch (a b p : Nat) (sfx : String)
    (hd : ∀ c, sfx.data.head? = some c → c.isDigit = false)
    (hn : '\n' ∉ sfx.data)
    (hp : p + 1 < U32_MOD) :
    increment_patch_version ("v" ++ natStr a ++ "." ++ natStr b ++ "." ++ natStr p ++ sfx)
      = .ok ("v" ++ natStr a ++ "." ++ natStr b ++ "." ++ natStr (p + 1) ++ sfx) := by
  have hparse : parseTag ("v" ++ natStr a ++ "." ++ natStr b ++ "." ++ natStr p ++ sfx)
      = some (natStr a, natStr b, natStr p, sfx) :=
    parseTag_construct_str (natToDigits a) (natToDigits b) (natToDigits p) sfx
      (natToDigits_all_digit a) (natToDigits_ne_nil a)
      (natToDigits_all_digit b) (natToDigits_ne_nil b)
      (natToDigits_all_digit p) (natToDigits_ne_nil p) hd hn
  have hv : natOfDigits (natStr p).data = p := natOfDigits_natToDigits p
  rw [increment_eval hparse (by rw [hv]; exact hp), hv]

/-- Witness for C2 at the tag v1.2.3. -/
theorem claim_C2_witness :
    increment_patch_version ("v" ++ natStr 1 ++ "." ++ natStr 2 ++ "." ++ natStr 3 ++ "")
      = .ok ("v" ++ natStr 1 ++ "." ++ natStr 2 ++ "." ++ natStr (3 + 1) ++ "") :=
  claim_C2_increment_patch 1 2 3 ""
    (by intro c hc; rw [show ("" : String).data = [] from rfl] at hc; simp at hc)
    (by rw [show ("" : String).data = [] from rfl]; simp)
    (by decide)

/-- C7: every tag the version regex rejects makes both
increment_patch_version and get_minor_version fail with the invalid
tag format error; nothing is truncated or passed through. -/
theorem claim_C7_malformed (tag : String) (h : parseTag tag = none) :
    increment_patch_version tag = .err ("Invalid semantic version tag format: " ++ tag) ∧
    get_minor_version tag = .err ("Invalid semantic version tag format: " ++ tag) := by
  unfold increment_patch_version get_minor_version
  rw [h]
  exact ⟨rfl, rfl⟩

/-- Witness for C7 at the malformed tag v1.2 (missing patch). -/
theorem claim_C7_witness :
    parseTag "v1.2" = none ∧
    (increment_patch_version "v1.2" = .err ("Invalid semantic version tag format: " ++ "v1.2") ∧
     get_minor_version "v1.2" = .err ("Invalid semantic version tag format: " ++ "v1.2")) :=
  ⟨by decide, claim_C7_malformed "v1.2" (by decide)⟩

/-- C8: at a patch literal too large for u32 the code does not return a
fatal numeric error value; the unwrap of the failed u32 parse panics,
aborting the process.  This theorem records the code behavior at the
failing input for the claim. -/
theorem claim_C8_overflow_panics :
    increment_patch_version "v1.2.4294967296" = .panics := by decide

/-- C10: for every tag accepted by the version parser (with the
incremented patch within u32), the convention release branch name is
invariant under the patch bump. -/
theorem claim_C10_branch_invariant (tag mj mn pt sfx : String)
    (hp : parseTag tag = some (mj, mn, pt, sfx))
    (hb : natOfDigits pt.data + 1 < U32_MOD) :
    ∃ newTag, increment_patch_version tag = .ok newTag ∧
      get_release_branch_name newTag = get_release_branch_name tag := by
  obtain ⟨hmj, hmjne, hmn, hmnne, hptd, hptne, hsfx, hnl⟩ :=
    parseTagChars_sound (parseTag_inv hp)
  refine ⟨"v" ++ mj ++ "." ++ mn ++ "." ++ natStr (natOfDigits pt.data + 1) ++ sfx,
    increment_eval hp hb, ?_⟩
  have hparse : parseTag ("v" ++ mj ++ "." ++ mn ++ "."
        ++ natStr (natOfDigits pt.data + 1) ++ sfx)
      = some (mj, mn, natStr (natOfDigits pt.data + 1), sfx) := by
    have := parseTag_construct_str mj.data mn.data
        (natToDigits (natOfDigits pt.data + 1)) sfx
        hmj hmjne hmn hmnne
        (natToDigits_all_digit _) (natToDigits_ne_nil _) hsfx hnl
    simpa [mk_data] using this
  unfold get_release_branch_name get_minor_version
  rw [hp, hparse]

/-- Witness for C10 at the tag v1.2.3. -/
theorem claim_C10_witness :
    ∃ newTag, increment_patch_version "v1.2.3" = .ok newTag ∧
      get_release_branch_name newTag = get_release_branch_name "v1.2.3" :=
  claim_C10_branch_invariant "v1.2.3" "1" "2" "3" "" (by decide) (by decide)

/-- C6: delete tolerance is asymmetric: delete_tag succeeds exactly on
a success status or a 404, while delete_release succeeds exactly on a
success status, so a 404 is a tolerated outcome for the tag delete and
a surfaced failure for the release delete. -/
theorem claim_C6_delete_asymmetry : ∀ st : Nat,
    (delete_tag st = .ok () ↔ (statusIsSuccess st = true ∨ st = 404)) ∧
    (delete_release st = .ok () ↔ statusIsSuccess st = true) := by
  intro st
  constructor
  · unfold delete_tag
    by_cases hc : (statusIsSuccess st || st == 404) = true
    · rw [if_pos hc]
      simp only [Bool.or_eq_true, beq_iff_eq] at hc
      simp [hc]
    · rw [if_neg hc]
      simp only [Bool.or_eq_true, beq_iff_eq] at hc
      push_neg at hc
      simp [hc.1, hc.2]
  · unfold delete_release
    by_cases hc : statusIsSuccess st = true
    · simp [hc]
    · simp [hc]

/-- C9: the create-release request posts prerelease true and
generate_release_notes true for every tag and target branch. -/
theorem claim_C9_prerelease_notes : ∀ tag branch : String,
    (create_release_request tag branch).prerelease = true ∧
    (create_release_request tag branch).generate_release_notes = true :=
  fun _ _ => ⟨rfl, rfl⟩

/-- C1: the version resolver returns the requested tag unchanged when
no release exists for it or the release is not marked prerelease; when
a prerelease exists it returns the patch-bumped tag exactly when the
convention branch release/v<major>.<minor>.x exists, and the unchanged
tag otherwise. -/
theorem claim_C1_determine_tag (w : World) (rq mj mn pt sfx : String)
    (hp : parseTag rq = some (mj, mn, pt, sfx))
    (hb : natOfDigits pt.data + 1 < U32_MOD) :
    (determine_tag_version w rq).1 =
      .ok (if (match w.releases rq with
               | some r => r.prerelease.getD false
               | none => false) then
             (if w.branches ("release/v" ++ (mj ++ "." ++ mn) ++ ".x")
              then "v" ++ mj ++ "." ++ mn ++ "." ++ natStr (natOfDigits pt.data + 1) ++ sfx
              else rq)
           else rq) := by
  have hbranch : get_release_branch_name rq =
      .ok ("release/v" ++ (mj ++ "." ++ mn) ++ ".x") := by
    unfold get_release_branch_name get_minor_version
    rw [hp]
  unfold determine_tag_version should_increment_patch is_prerelease
    get_release_by_tag branch_exists
  cases hrel : w.releases rq with
  | none => simp
  | some r =>
    cases hpre : r.prerelease.getD false with
    | false => simp [hpre]
    | true =>
      rw [hbranch]
      cases hbex : w.branches ("release/v" ++ (mj ++ "." ++ mn) ++ ".x") with
      | false => simp [hpre, hbex]
      | true => simp [hpre, hbex, increment_eval hp hb]

/-- C3: the branch resolver returns the convention branch
release/v<major>.<minor>.x when that branch exists, and the fallback
release/<tag> otherwise. -/
theorem claim_C3_branch_resolver (w : World) (tag mj mn pt sfx : String)
    (hp : parseTag tag = some (mj, mn, pt, sfx)) :
    (get_release_branch_for_tag w tag).1 =
      .ok (if w.branches ("release/v" ++ (mj ++ "." ++ mn) ++ ".x")
           then "release/v" ++ (mj ++ "." ++ mn) ++ ".x"
           else "release/" ++ tag) := by
  have hbranch : get_release_branch_name tag =
      .ok ("release/v" ++ (mj ++ "." ++ mn) ++ ".x") := by
    unfold get_release_branch_name get_minor_version
    rw [hp]
  unfold get_release_branch_for_tag branch_exists
  rw [hbranch]
  cases hbex : w.branches ("release/v" ++ (mj ++ "." ++ mn) ++ ".x") with
  | false => simp [hbex]
  | true => simp [hbex]

/-- Witness for C1: in testWorld the request v1.0.0 resolves to the
bumped tag branch of the conclusion. -/
theorem claim_C1_witness :
    (determine_tag_version testWorld "v1.0.0").1 =
      .ok (if (match testWorld.releases "v1.0.0" with
               | some r => r.prerelease.getD false
               | none => false) then
             (if testWorld.branches ("release/v" ++ ("1" ++ "." ++ "0") ++ ".x")
              then "v" ++ "1" ++ "." ++ "0" ++ "." ++ natStr (natOfDigits ("0" : String).data + 1) ++ ""
              else "v1.0.0")
           else "v1.0.0") :=
  claim_C1_determine_tag testWorld "v1.0.0" "1" "0" "0" "" (by decide) (by decide)

/-- Witness for C3: in testWorld the tag v1.0.0 resolves to the
convention branch release/v1.0.x. -/
theorem claim_C3_witness :
    (get_release_branch_for_tag testWorld "v1.0.0").1 =
      .ok (if testWorld.branches ("release/v" ++ ("1" ++ "." ++ "0") ++ ".x")
           then "release/v" ++ ("1" ++ "." ++ "0") ++ ".x"
           else "release/" ++ "v1.0.0") :=
  claim_C3_branch_resolver testWorld "v1.0.0" "1" "0" "0" "" (by decide)

lemma noDelete_append (l1 l2 : List Event) :
    noDelete (l1 ++ l2) = (noDelete l1 && noDelete l2) := by
  simp [noDelete]

lemma noDelete_cons (e : Event) (l : List Event) :
    noDelete (e :: l) = (!e.isDelete && noDelete l) := by
  simp [noDelete]

lemma grbft_noDelete (w : World) (tag : String) :
    noDelete (get_release_branch_for_tag w tag).2 = true := by
  unfold get_release_branch_for_tag branch_exists
  cases hg : get_release_branch_name tag with
  | ok bn =>
    cases hb : w.branches bn <;> simp [hg, hb, noDelete, Event.isDelete]
  | err e => simp [hg, noDelete]
  | panics => simp [hg, noDelete]

lemma create_release_noDelete (w : World) (tag : String) :
    noDelete (create_release w tag).2 = true := by
  unfold create_release
  cases hg : get_release_branch_for_tag w tag with
  | mk res ev =>
    have h2 : noDelete ev = true := by
      have h := grbft_noDelete w tag
      rw [hg] at h
      exact h
    cases res with
    | ok branch =>
      cases hc : w.createdRelease tag <;>
        (simp only [hg, hc]; rw [noDelete_append, h2]; rfl)
    | err e => simp only [hg]; exact h2
    | panics => simp only [hg]; exact h2

lemma notesSteps_noDelete (w : World) (rel : Release) :
    noDelete (notesSteps w rel).2 = true := by
  unfold notesSteps
  cases hb : rel.body with
  | none => simp [hb, noDelete]
  | some notes =>
    by_cases ht : notes.trim.isEmpty
    · simp [hb, ht, noDelete]
    · cases hf : w.formatted notes with
      | none => simp [hb, ht, hf, noDelete, Event.isDelete]
      | some fn =>
        by_cases hu : w.updateOk rel.id fn <;>
          simp [hb, ht, hf, hu, noDelete, Event.isDelete]

lemma ensureRelease_noDelete (w : World) (tag : String) (existing : Option Release) :
    noDelete (ensureRelease w tag existing).2 = true := by
  unfold ensureRelease
  cases existing with
  | some rel => exact notesSteps_noDelete w rel
  | none =>
    cases hcr : create_release w tag with
    | mk res ev =>
      have hc : noDelete ev = true := by
        have h := create_release_noDelete w tag
        rw [hcr] at h
        exact h
      cases res with
      | ok rel =>
        cases hns : notesSteps w rel with
        | mk res2 ev2 =>
          have hn : noDelete ev2 = true := by
            have h := notesSteps_noDelete w rel
            rw [hns] at h
            exact h
          simp [hcr, hns, noDelete_append, hc, hn]
      | err e => simp [hcr, hc]
      | panics => simp [hcr, hc]

lemma afterFetch_noDelete (w : World) (tag : String) (inc : Bool)
    (rels : String → Option Release) (sha : String) :
    noDelete (afterFetch w tag inc rels sha).2 = true := by
  unfold afterFetch get_release_by_tag
  cases hens : ensureRelease w tag (rels tag) with
  | mk res ev =>
    have he : noDelete ev = true := by
      have h := ensureRelease_noDelete w tag (rels tag)
      rw [hens] at h
      exact h
    simp only []
    by_cases hcond : ((rels tag).isNone || !inc) = true
    · simp only [if_pos hcond]
      cases hobj : w.tagObjectSha tag ("Release " ++ tag) sha with
      | none => simp only [hobj]; rfl
      | some osha =>
        by_cases href : w.tagRefOk tag osha = true
        · simp only [hobj, if_pos href, hens]
          rw [noDelete_append, he]
          rfl
        · simp only [hobj, if_neg href]
          rfl
    · simp only [if_neg hcond, hens]
      rw [noDelete_append, he]
      rfl

lemma afterStep2_noDelete (w : World) (tag : String) (inc : Bool)
    (rels : String → Option Release) :
    noDelete (afterStep2 w tag inc rels).2 = true := by
  unfold afterStep2 get_latest_commit_sha
  cases hgr : get_release_branch_for_tag w tag with
  | mk res evB =>
    have hg : noDelete evB = true := by
      have h := grbft_noDelete w tag
      rw [hgr] at h
      exact h
    cases res with
    | ok branch =>
      cases hcom : w.commits branch with
      | none =>
        simp only [hgr, hcom]
        rw [noDelete_append, hg]
        rfl
      | some sha =>
        cases haf : afterFetch w tag inc rels sha with
        | mk res2 ev2 =>
          have hf : noDelete ev2 = true := by
            have h := afterFetch_noDelete w tag inc rels sha
            rw [haf] at h
            exact h
          simp only [hgr, hcom, haf]
          rw [noDelete_append, noDelete_append, hg, hf]
          rfl
    | err e => simp only [hgr]; exact hg
    | panics => simp only [hgr]; exact hg

lemma afterStep1_inc_noDelete (w : World) (tag : String)
    (rels : String → Option Release) :
    noDelete (afterStep1 w tag true rels).2 = true := by
  unfold afterStep1
  cases ha : afterStep2 w tag true rels with
  | mk res ev =>
    have h2 : noDelete ev = true := by
      have h := afterStep2_noDelete w tag true rels
      rw [ha] at h
      exact h
    simp only [ha]
    rw [noDelete_append, h2]
    rfl

lemma determine_noDelete (w : World) (rq : String) :
    noDelete (determine_tag_version w rq).2 = true := by
  unfold determine_tag_version should_increment_patch is_prerelease
    get_release_by_tag branch_exists
  cases hrel : w.releases rq with
  | none => simp [hrel, noDelete, Event.isDelete]
  | some r =>
    cases hpre : r.prerelease.getD false with
    | false => simp [hrel, hpre, noDelete, Event.isDelete]
    | true =>
      cases hg : get_release_branch_name rq with
      | ok bn =>
        cases hbex : w.branches bn with
        | false => simp [hrel, hpre, hg, hbex, noDelete, Event.isDelete]
        | true =>
          cases hi : increment_patch_version rq <;>
            simp [hrel, hpre, hg, hbex, hi, noDelete, Event.isDelete]
      | err e => simp [hrel, hpre, hg, noDelete, Event.isDelete]
      | panics => simp [hrel, hpre, hg, noDelete, Event.isDelete]

lemma noTagCreate_append (l1 l2 : List Event) :
    noTagCreate (l1 ++ l2) = (noTagCreate l1 && noTagCreate l2) := by
  simp [noTagCreate]

lemma noTagCreate_any {l : List Event} (h : noTagCreate l = true) :
    l.any Event.isTagObjectCreate = false ∧ l.any Event.isTagRefCreate = false := by
  unfold noTagCreate at h
  rw [List.all_eq_true] at h
  constructor <;>
    (rw [List.any_eq_false]; intro x hx; have h2 := h x hx; simp at h2; simp [h2.1, h2.2])

lemma grbft_eval (w : World) (tag bn : String)
    (hbn : get_release_branch_name tag = .ok bn) :
    get_release_branch_for_tag w tag =
      (.ok (if w.branches bn then bn else "release/" ++ tag), [.branchExists bn]) := by
  unfold get_release_branch_for_tag branch_exists
  rw [hbn]
  cases hb : w.branches bn <;> simp [hb]

lemma grbft_noTagCreate (w : World) (tag : String) :
    noTagCreate (get_release_branch_for_tag w tag).2 = true := by
  unfold get_release_branch_for_tag branch_exists
  cases hg : get_release_branch_name tag with
  | ok bn =>
    cases hb : w.branches bn <;>
      simp [hg, hb, noTagCreate, Event.isTagObjectCreate, Event.isTagRefCreate]
  | err e => simp [hg, noTagCreate]
  | panics => simp [hg, noTagCreate]

lemma notesSteps_noTagCreate (w : World) (rel : Release) :
    noTagCreate (notesSteps w rel).2 = true := by
  unfold notesSteps
  cases hb : rel.body with
  | none => simp [hb, noTagCreate]
  | some notes =>
    by_cases ht : notes.trim.isEmpty
    · simp [hb, ht, noTagCreate]
    · cases hf : w.formatted notes with
      | none => simp [hb, ht, hf, noTagCreate, Event.isTagObjectCreate, Event.isTagRefCreate]
      | some fn =>
        by_cases hu : w.updateOk rel.id fn <;>
          simp [hb, ht, hf, hu, noTagCreate, Event.isTagObjectCreate, Event.isTagRefCreate]

lemma create_release_noTagCreate (w : World) (tag : String) :
    noTagCreate (create_release w tag).2 = true := by
  unfold create_release
  cases hg : get_release_branch_for_tag w tag with
  | mk res ev =>
    have h2 : noTagCreate ev = true := by
      have h := grbft_noTagCreate w tag
      rw [hg] at h
      exact h
    cases res with
    | ok branch =>
      cases hc : w.createdRelease tag <;>
        (simp only [hg, hc]; rw [noTagCreate_append, h2]; rfl)
    | err e => simp only [hg]; exact h2
    | panics => simp only [hg]; exact h2

lemma ensureRelease_noTagCreate (w : World) (tag : String) (existing : Option Release) :
    noTagCreate (ensureRelease w tag existing).2 = true := by
  unfold ensureRelease
  cases existing with
  | some rel => exact notesSteps_noTagCreate w rel
  | none =>
    cases hcr : create_release w tag with
    | mk res ev =>
      have hc : noTagCreate ev = true := by
        have h := create_release_noTagCreate w tag
        rw [hcr] at h
        exact h
      cases res with
      | ok rel =>
        cases hns : notesSteps w rel with
        | mk res2 ev2 =>
          have hn : noTagCreate ev2 = true := by
            have h := notesSteps_noTagCreate w rel
            rw [hns] at h
            exact h
          simp [hcr, hns, noTagCreate_append, hc, hn]
      | err e => simp [hcr, hc]
      | panics => simp [hcr, hc]

lemma determine_noTagCreate (w : World) (rq : String) :
    noTagCreate (determine_tag_version w rq).2 = true := by
  unfold determine_tag_version should_increment_patch is_prerelease
    get_release_by_tag branch_exists
  cases hrel : w.releases rq with
  | none => simp [hrel, noTagCreate, Event.isTagObjectCreate, Event.isTagRefCreate]
  | some r =>
    cases hpre : r.prerelease.getD false with
    | false => simp [hrel, hpre, noTagCreate, Event.isTagObjectCreate, Event.isTagRefCreate]
    | true =>
      cases hg : get_release_branch_name rq with
      | ok bn =>
        cases hbex : w.branches bn with
        | false =>
          simp [hrel, hpre, hg, hbex, noTagCreate, Event.isTagObjectCreate,
            Event.isTagRefCreate]
        | true =>
          cases hi : increment_patch_version rq <;>
            simp [hrel, hpre, hg, hbex, hi, noTagCreate, Event.isTagObjectCreate,
              Event.isTagRefCreate]
      | err e => simp [hrel, hpre, hg, noTagCreate, Event.isTagObjectCreate, Event.isTagRefCreate]
      | panics =>
        simp [hrel, hpre, hg, noTagCreate, Event.isTagObjectCreate, Event.isTagRefCreate]

lemma afterFetch_objAny (w : World) (tag : String) (inc : Bool)
    (rels : String → Option Release) (sha : String) :
    (afterFetch w tag inc rels sha).2.any Event.isTagObjectCreate
      = ((rels tag).isNone || !inc) := by
  unfold afterFetch get_release_by_tag
  cases hens : ensureRelease w tag (rels tag) with
  | mk res ev =>
    have hn : ev.any Event.isTagObjectCreate = false ∧ ev.any Event.isTagRefCreate = false := by
      refine noTagCreate_any ?_
      have h := ensureRelease_noTagCreate w tag (rels tag)
      rw [hens] at h
      exact h
    simp only []
    by_cases hcond : ((rels tag).isNone || !inc) = true
    · rw [if_pos hcond, hcond]
      cases hobj : w.tagObjectSha tag ("Release " ++ tag) sha with
      | none => simp [Event.isTagObjectCreate]
      | some osha =>
        by_cases href : w.tagRefOk tag osha = true <;>
          simp [href, hens, Event.isTagObjectCreate]
    · have hcond2 : ((rels tag).isNone || !inc) = false := by
        revert hcond
        cases ((rels tag).isNone || !inc) <;> simp
      rw [if_neg hcond, hcond2]
      simp [hens, List.any_append, hn.1, Event.isTagObjectCreate]

lemma afterFetch_refAny (w : World) (tag : String) (inc : Bool)
    (rels : String → Option Release) (sha osha : String)
    (hobj : w.tagObjectSha tag ("Release " ++ tag) sha = some osha) :
    (afterFetch w tag inc rels sha).2.any Event.isTagRefCreate
      = ((rels tag).isNone || !inc) := by
  unfold afterFetch get_release_by_tag
  cases hens : ensureRelease w tag (rels tag) with
  | mk res ev =>
    have hn : ev.any Event.isTagObjectCreate = false ∧ ev.any Event.isTagRefCreate = false := by
      refine noTagCreate_any ?_
      have h := ensureRelease_noTagCreate w tag (rels tag)
      rw [hens] at h
      exact h
    simp only []
    by_cases hcond : ((rels tag).isNone || !inc) = true
    · rw [if_pos hcond, hcond, hobj]
      by_cases href : w.tagRefOk tag osha = true <;>
        simp [href, hens, Event.isTagRefCreate]
    · have hcond2 : ((rels tag).isNone || !inc) = false := by
        revert hcond
        cases ((rels tag).isNone || !inc) <;> simp
      rw [if_neg hcond, hcond2]
      simp [hens, List.any_append, hn.2, Event.isTagRefCreate]

lemma afterStep2_objAny (w : World) (tag bn : String) (inc : Bool)
    (rels : String → Option Release) (sha : String)
    (hbn : get_release_branch_name tag = .ok bn)
    (hsha : w.commits (if w.branches bn then bn else "release/" ++ tag) = some sha) :
    (afterStep2 w tag inc rels).2.any Event.isTagObjectCreate
      = ((rels tag).isNone || !inc) := by
  unfold afterStep2 get_latest_commit_sha
  rw [grbft_eval w tag bn hbn]
  simp only [hsha]
  cases haf : afterFetch w tag inc rels sha with
  | mk res2 ev2 =>
    have h := afterFetch_objAny w tag inc rels sha
    rw [haf] at h
    simp only [] at h
    simp [List.any_append, h, Event.isTagObjectCreate]

lemma afterStep2_refAny (w : World) (tag bn : String) (inc : Bool)
    (rels : String → Option Release) (sha osha : String)
    (hbn : get_release_branch_name tag = .ok bn)
    (hsha : w.commits (if w.branches bn then bn else "release/" ++ tag) = some sha)
    (hobj : w.tagObjectSha tag ("Release " ++ tag) sha = some osha) :
    (afterStep2 w tag inc rels).2.any Event.isTagRefCreate
      = ((rels tag).isNone || !inc) := by
  unfold afterStep2 get_latest_commit_sha
  rw [grbft_eval w tag bn hbn]
  simp only [hsha]
  cases haf : afterFetch w tag inc rels sha with
  | mk res2 ev2 =>
    have h := afterFetch_refAny w tag inc rels sha osha hobj
    rw [haf] at h
    simp only [] at h
    simp [List.any_append, h, Event.isTagRefCreate]

lemma afterStep1_objAny (w : World) (tag bn : String) (inc : Bool)
    (rels : String → Option Release) (sha : String)
    (hbn : get_release_branch_name tag = .ok bn)
    (hsha : w.commits (if w.branches bn then bn else "release/" ++ tag) = some sha) :
    (afterStep1 w tag inc rels).2.any Event.isTagObjectCreate
      = ((rels tag).isNone || !inc) := by
  unfold afterStep1
  cases ha : afterStep2 w tag inc rels with
  | mk res ev =>
    have h := afterStep2_objAny w tag bn inc rels sha hbn hsha
    rw [ha] at h
    simp only [] at h
    cases inc <;> simp_all [List.any_append, Event.isTagObjectCreate]

lemma afterStep1_refAny (w : World) (tag bn : String) (inc : Bool)
    (rels : String → Option Release) (sha osha : String)
    (hbn : get_release_branch_name tag = .ok bn)
    (hsha : w.commits (if w.branches bn then bn else "release/" ++ tag) = some sha)
    (hobj : w.tagObjectSha tag ("Release " ++ tag) sha = some osha) :
    (afterStep1 w tag inc rels).2.any Event.isTagRefCreate
      = ((rels tag).isNone || !inc) := by
  unfold afterStep1
  cases ha : afterStep2 w tag inc rels with
  | mk res ev =>
    have h := afterStep2_refAny w tag bn inc rels sha osha hbn hsha hobj
    rw [ha] at h
    simp only [] at h
    cases inc <;> simp_all [List.any_append, Event.isTagRefCreate]

/-- Occurrence of an event kind across a whole run, as one equation:
an event satisfying p occurs exactly when the step-5 re-read of the
effective tag finds nothing or the run is not incremented, provided p
never holds on the events before step 5 and occurs in the tail exactly
under that condition. -/
lemma process_anyEq (w : World) (rq : String) (p : Event → Bool)
    (tag : String) (ev0 : List Event)
    (hdet : determine_tag_version w rq = (.ok tag, ev0))
    (hev0 : ev0.any p = false)
    (hget : ∀ t, p (.getReleaseByTag t) = false)
    (hdelr : ∀ i, p (.deleteRelease i) = false)
    (hdel : ∀ r, w.releases tag = some r → tag = rq → w.deleteReleaseOk r.id = true)
    (hstep : ∀ (i : Bool) (rels : String → Option Release),
       (afterStep1 w tag i rels).2.any p = ((rels tag).isNone || !i)) :
    (process_release w rq).2.any p
      = ((if tag = rq then (none : Option Release) else w.releases tag).isNone
          || !(tag != rq)) := by
  unfold process_release get_release_by_tag
  rw [hdet]
  simp only []
  by_cases heq : tag = rq
  · have hinc : (tag != rq) = false := by simp [heq]
    rw [hinc]
    cases hrel : w.releases tag with
    | some r =>
      simp only [Bool.false_eq_true, if_false]
      rw [if_pos (hdel r hrel heq)]
      cases ha : afterStep1 w tag false (fun t => if t == tag then none else w.releases t) with
      | mk res ev =>
        simp only []
        have hs := hstep false (fun t => if t == tag then none else w.releases t)
        rw [ha] at hs
        simp only [] at hs
        simp [List.any_append, hev0, hget, hdelr, hs, heq]
    | none =>
      simp only []
      cases ha : afterStep1 w tag false w.releases with
      | mk res ev =>
        simp only []
        have hs := hstep false w.releases
        rw [ha] at hs
        simp only [] at hs
        simp [List.any_append, hev0, hget, hs, heq, hrel]
  · have hinc : (tag != rq) = true := bne_iff_ne.mpr heq
    rw [hinc]
    cases hrel : w.releases tag with
    | some r =>
      simp only [eq_self_iff_true, if_true]
      cases ha : afterStep1 w tag true w.releases with
      | mk res ev =>
        simp only []
        have hs := hstep true w.releases
        rw [ha] at hs
        simp only [] at hs
        simp [List.any_append, hev0, hget, hs, heq, hrel]
    | none =>
      simp only []
      cases ha : afterStep1 w tag true w.releases with
      | mk res ev =>
        simp only []
        have hs := hstep true w.releases
        rw [ha] at hs
        simp only [] at hs
        simp [List.any_append, hev0, hget, hs, heq, hrel]

/-- C4: whenever the effective tag differs from the requested tag (an
incremented run), the whole run performs no deleteRelease and no
deleteTag call (Event.isDelete holds exactly on those two calls): the
release found for the incremented tag is kept and the tag-deletion
step is skipped. -/
theorem claim_C4_incremented_never_deletes (w : World) (rq tag : String) (ev0 : List Event)
    (hdet : determine_tag_version w rq = (.ok tag, ev0))
    (hne : tag ≠ rq) :
    noDelete (process_release w rq).2 = true := by
  have hev0 : noDelete ev0 = true := by
    have h := determine_noDelete w rq
    rw [hdet] at h
    simpa using h
  unfold process_release get_release_by_tag
  rw [hdet]
  simp only []
  have hinc : (tag != rq) = true := bne_iff_ne.mpr hne
  rw [hinc]
  cases hrel : w.releases tag with
  | none =>
    cases ha : afterStep1 w tag true w.releases with
    | mk res ev =>
      have h1 : noDelete ev = true := by
        have h := afterStep1_inc_noDelete w tag w.releases
        rw [ha] at h
        exact h
      simp only [hrel, ha]
      rw [noDelete_append, noDelete_append, hev0, h1]
      rfl
  | some r =>
    cases ha : afterStep1 w tag true w.releases with
    | mk res ev =>
      have h1 : noDelete ev = true := by
        have h := afterStep1_inc_noDelete w tag w.releases
        rw [ha] at h
        exact h
      simp only [hrel, eq_self_iff_true, if_true, ha]
      rw [noDelete_append, noDelete_append, hev0, h1]
      rfl

/-- Witness for C4: in testWorld the request v1.0.0 resolves to the
incremented tag v1.0.1 and the run performs no delete calls. -/
theorem claim_C4_witness :
    noDelete (process_release testWorld "v1.0.0").2 = true :=
  claim_C4_incremented_never_deletes testWorld "v1.0.0" "v1.0.1"
    [Event.getReleaseByTag "v1.0.0", Event.branchExists "release/v1.0.x"]
    (by decide) (by decide)

/-- C5: in every run that reaches the EnsureTag step (version
resolution succeeded, the step-1 release delete succeeded when taken,
the release branch resolved, its tip commit was read, and the host
answers the tag object creation), the tag object and the tag ref
creation calls happen if and only if no release exists for the
effective tag as re-read at that step or the run is not incremented
(effective tag equals requested tag); when a release exists and the
run is incremented, tag creation is skipped. -/
theorem claim_C5_ensure_tag (w : World) (rq tag bn sha osha : String) (ev0 : List Event)
    (hdet : determine_tag_version w rq = (.ok tag, ev0))
    (hbn : get_release_branch_name tag = .ok bn)
    (hdel : ∀ r, w.releases tag = some r → tag = rq → w.deleteReleaseOk r.id = true)
    (hsha : w.commits (if w.branches bn then bn else "release/" ++ tag) = some sha)
    (hobj : w.tagObjectSha tag ("Release " ++ tag) sha = some osha) :
    (((process_release w rq).2.any Event.isTagObjectCreate = true) ↔
       ((if tag = rq then (none : Option Release) else w.releases tag) = none ∨ tag = rq))
    ∧ (((process_release w rq).2.any Event.isTagRefCreate = true) ↔
       ((if tag = rq then (none : Option Release) else w.releases tag) = none ∨ tag = rq)) := by
  have hev : ev0.any Event.isTagObjectCreate = false ∧ ev0.any Event.isTagRefCreate = false := by
    refine noTagCreate_any ?_
    have h := determine_noTagCreate w rq
    rw [hdet] at h
    exact h
  have hobjEq := process_anyEq w rq Event.isTagObjectCreate tag ev0 hdet hev.1
    (fun _ => rfl) (fun _ => rfl) hdel
    (fun i rels => afterStep1_objAny w tag bn i rels sha hbn hsha)
  have hrefEq := process_anyEq w rq Event.isTagRefCreate tag ev0 hdet hev.2
    (fun _ => rfl) (fun _ => rfl) hdel
    (fun i rels => afterStep1_refAny w tag bn i rels sha osha hbn hsha hobj)
  constructor
  · rw [hobjEq]
    by_cases heq : tag = rq
    · simp [heq]
    · simp [heq, bne_iff_ne.mpr heq, Option.isNone_iff_eq_none]
  · rw [hrefEq]
    by_cases heq : tag = rq
    · simp [heq]
    · simp [heq, bne_iff_ne.mpr heq, Option.isNone_iff_eq_none]

/-- Witness for C5: in testWorld the run for v1.0.0 uses effective tag
v1.0.1 with no pre-existing release, so the tag object and tag ref are
created. -/
theorem claim_C5_witness :
    (((process_release testWorld "v1.0.0").2.any Event.isTagObjectCreate = true) ↔
       ((if "v1.0.1" = "v1.0.0" then (none : Option Release)
         else testWorld.releases "v1.0.1") = none ∨ "v1.0.1" = "v1.0.0"))
    ∧ (((process_release testWorld "v1.0.0").2.any Event.isTagRefCreate = true) ↔
       ((if "v1.0.1" = "v1.0.0" then (none : Option Release)
         else testWorld.releases "v1.0.1") = none ∨ "v1.0.1" = "v1.0.0")) :=
  claim_C5_ensure_tag testWorld "v1.0.0" "v1.0.1" "release/v1.0.x" "abc123" "tagsha"
    [Event.getReleaseByTag "v1.0.0", Event.branchExists "release/v1.0.x"]
    (by decide) (by decide)
    (by intro r hr hq; rw [show testWorld.releases "v1.0.1" = none from rfl] at hr; cases hr)
    (by decide) (by decide)

end Releaser
